import Mathlib

/-!
Shallow embedding of the audio-reactive signal pipeline of `src/script.js`
(functions `setAudioMeter` and `updateAudioReactive`).

JavaScript numbers are modelled as rationals; the frequency snapshot read
from the analyser is modelled as an explicit input (a list of byte
magnitudes together with the audio context sample rate), and the mutable
globals `beatPulse`, `audioLevel`, `audioBass`, `beatHistory`,
`beatHistorySum`, `beatGateUntil` as a state record threaded through a
per-tick step function.
-/

/-- The frequency snapshot handed to one tick: the contents of the
`frequencyData` byte array after `getByteFrequencyData`, together with
`audioContext.sampleRate`.  `data.length` is the bin count. -/
structure FrequencySnapshot where
  data : List ℕ
  sampleRate : ℚ
deriving Repr, DecidableEq

/-- A snapshot is valid when it has at least one bin, a positive sample
rate, and byte magnitudes (each at most 255). -/
def ValidSnapshot (snap : FrequencySnapshot) : Prop :=
  1 ≤ snap.data.length ∧ 0 < snap.sampleRate ∧ ∀ m ∈ snap.data, m ≤ 255

instance (snap : FrequencySnapshot) : Decidable (ValidSnapshot snap) := by
  unfold ValidSnapshot; infer_instance

/-- The mutable globals of the pipeline in `script.js`. -/
structure AudioState where
  beatPulse : ℚ
  audioLevel : ℚ
  audioBass : ℚ
  beatHistory : List ℚ
  beatHistorySum : ℚ
  beatGateUntil : ℚ
deriving Repr, DecidableEq

/-- One invocation of `updateAudioReactive`: the timestamp argument
(seconds) and either a fresh snapshot, or `none` when the analyser is
uninitialized or the audio element is paused. -/
structure TickEvent where
  input : Option FrequencySnapshot
  time : ℚ
deriving Repr, DecidableEq

/-- `(audioContext.sampleRate * 0.5) / frequencyData.length`. -/
def hzPerBin (snap : FrequencySnapshot) : ℚ :=
  snap.sampleRate * (1 / 2) / (snap.data.length : ℚ)

/-- `bassStart = Math.max(0, Math.floor(30 / hzPerBin))`. -/
def bassStartIdx (snap : FrequencySnapshot) : ℤ :=
  max 0 ⌊(30 : ℚ) / hzPerBin snap⌋

/-- `bassEnd = Math.min(frequencyData.length - 1, Math.floor(180 / hzPerBin))`. -/
def bassEndIdx (snap : FrequencySnapshot) : ℤ :=
  min ((snap.data.length : ℤ) - 1) ⌊(180 : ℚ) / hzPerBin snap⌋

/-- `bodyEnd = Math.min(frequencyData.length - 1, Math.floor(1800 / hzPerBin))`. -/
def bodyEndIdx (snap : FrequencySnapshot) : ℤ :=
  min ((snap.data.length : ℤ) - 1) ⌊(1800 : ℚ) / hzPerBin snap⌋

/-- Sum of `data[i]` over the inclusive index range `a ≤ i ≤ b`, as in the
JavaScript accumulation loops (no iteration when `b < a`). -/
def sliceSum (data : List ℕ) (a b : ℤ) : ℕ :=
  ∑ i ∈ Finset.Icc a b, data.getD i.toNat 0

/-- `bassValue = bassSum / (Math.max(1, bassEnd - bassStart + 1) * 255)`. -/
def bassValueOf (snap : FrequencySnapshot) : ℚ :=
  (sliceSum snap.data (bassStartIdx snap) (bassEndIdx snap) : ℚ) /
    ((max 1 (bassEndIdx snap - bassStartIdx snap + 1) : ℤ) * 255 : ℚ)

/-- `bodyValue = bodySum / (Math.max(1, bodyEnd + 1) * 255)`. -/
def bodyValueOf (snap : FrequencySnapshot) : ℚ :=
  (sliceSum snap.data 0 (bodyEndIdx snap) : ℚ) /
    ((max 1 (bodyEndIdx snap + 1) : ℤ) * 255 : ℚ)

/-- `audioBass = audioBass * 0.72 + bassValue * 0.28`. -/
def nextBass (st : AudioState) (snap : FrequencySnapshot) : ℚ :=
  st.audioBass * (72 / 100) + bassValueOf snap * (28 / 100)

/-- `audioLevel = audioLevel * 0.84 + bodyValue * 0.16`. -/
def nextLevel (st : AudioState) (snap : FrequencySnapshot) : ℚ :=
  st.audioLevel * (84 / 100) + bodyValueOf snap * (16 / 100)

/-- The history push followed by the conditional evict: `beatHistory.push(b)`,
`beatHistorySum += b`, and if the length now exceeds 42,
`beatHistorySum -= beatHistory.shift()`.  Returns the new history and sum. -/
def pushEvict (hist : List ℚ) (s b : ℚ) : List ℚ × ℚ :=
  let h := hist ++ [b]
  let s2 := s + b
  if h.length > 42 then (h.tail, s2 - h.headD 0) else (h, s2)

/-- The push/evict step of one active tick, on the state's history, sum and
freshly smoothed bass. -/
def postHistory (st : AudioState) (snap : FrequencySnapshot) : List ℚ × ℚ :=
  pushEvict st.beatHistory st.beatHistorySum (nextBass st snap)

/-- `averageBass = beatHistory.length > 0 ? beatHistorySum / beatHistory.length : 0`,
evaluated on the post-push/evict history. -/
def averageBass (st : AudioState) (snap : FrequencySnapshot) : ℚ :=
  let hs := postHistory st snap
  if hs.1.length > 0 then hs.2 / (hs.1.length : ℚ) else 0

/-- `threshold = Math.max(0.14, averageBass * 1.32)`. -/
def thresholdOf (st : AudioState) (snap : FrequencySnapshot) : ℚ :=
  max (14 / 100) (averageBass st snap * (132 / 100))

/-- The branch condition `audioBass > threshold && timeSeconds > beatGateUntil`
(with `audioBass` the freshly smoothed bass). -/
def beatTriggered (st : AudioState) (snap : FrequencySnapshot) (t : ℚ) : Prop :=
  thresholdOf st snap < nextBass st snap ∧ st.beatGateUntil < t

instance (st : AudioState) (snap : FrequencySnapshot) (t : ℚ) :
    Decidable (beatTriggered st snap t) := by
  unfold beatTriggered; infer_instance

/-- Whether the tick fires a beat: requires an available snapshot and the
trigger condition on the current state. -/
def beatTriggeredEvent (st : AudioState) (e : TickEvent) : Prop :=
  match e.input with
  | none => False
  | some snap => beatTriggered st snap e.time

instance (st : AudioState) (e : TickEvent) : Decidable (beatTriggeredEvent st e) :=
  match e with
  | ⟨none, _⟩ => isFalse (fun h => h)
  | ⟨some snap, t⟩ =>
    if h : beatTriggered st snap t then isTrue h else isFalse h

/-- One call of `updateAudioReactive(timeSeconds)`.  The pulse decays by 0.9
first, before the availability branch (so the unavailable branch leaves the
pulse at `beatPulse * 0.9`, the untriggered available branch multiplies that
by the further 0.95, and the triggered branch overwrites it with 1); the
unavailable branch applies the decay-only level/bass updates and returns; the
available branch extracts band energies, smooths, pushes/evicts the history,
and either fires a beat or applies the extra pulse decay. -/
def updateAudioReactive (st : AudioState) (e : TickEvent) : AudioState :=
  match e.input with
  | none =>
    { st with
      beatPulse := st.beatPulse * (9 / 10)
      audioLevel := st.audioLevel * (92 / 100)
      audioBass := st.audioBass * (9 / 10) }
  | some snap =>
    if beatTriggered st snap e.time then
      { beatPulse := 1
        audioLevel := nextLevel st snap
        audioBass := nextBass st snap
        beatHistory := (postHistory st snap).1
        beatHistorySum := (postHistory st snap).2
        beatGateUntil := e.time + 17 / 100 }
    else
      { beatPulse := st.beatPulse * (9 / 10) * (95 / 100)
        audioLevel := nextLevel st snap
        audioBass := nextBass st snap
        beatHistory := (postHistory st snap).1
        beatHistorySum := (postHistory st snap).2
        beatGateUntil := st.beatGateUntil }

/-- `setAudioMeter(level)`: the clamped scale value written to the meter,
`Math.max(0.03, Math.min(1, level))`. -/
def setAudioMeter (level : ℚ) : ℚ :=
  max (3 / 100) (min 1 level)

/-- The meter value published by the tick: the unavailable branch calls
`setAudioMeter(audioLevel * 1.15 + beatPulse * 0.35)` and the available
branch `setAudioMeter(audioLevel * 1.4 + beatPulse * 0.5)`, both on the
already-updated globals. -/
def tickMeter (st : AudioState) (e : TickEvent) : ℚ :=
  match e.input with
  | none =>
    setAudioMeter ((updateAudioReactive st e).audioLevel * (115 / 100) +
      (updateAudioReactive st e).beatPulse * (35 / 100))
  | some _ =>
    setAudioMeter ((updateAudioReactive st e).audioLevel * (14 / 10) +
      (updateAudioReactive st e).beatPulse * (5 / 10))

/-- A run of consecutive ticks. -/
def runTrace (st : AudioState) (evs : List TickEvent) : AudioState :=
  evs.foldl updateAudioReactive st

/-- The timestamps of the ticks on which a beat fires, in tick order. -/
def beatTimes (st : AudioState) : List TickEvent → List ℚ
  | [] => []
  | e :: es =>
    if beatTriggeredEvent st e then
      e.time :: beatTimes (updateAudioReactive st e) es
    else
      beatTimes (updateAudioReactive st e) es

/-! ### Basic branch lemmas -/

lemma update_none (st : AudioState) (t : ℚ) :
    updateAudioReactive st ⟨none, t⟩ =
      { st with
        beatPulse := st.beatPulse * (9 / 10)
        audioLevel := st.audioLevel * (92 / 100)
        audioBass := st.audioBass * (9 / 10) } := rfl

lemma update_some_pos (st : AudioState) (snap : FrequencySnapshot) (t : ℚ)
    (h : beatTriggered st snap t) :
    updateAudioReactive st ⟨some snap, t⟩ =
      { beatPulse := 1
        audioLevel := nextLevel st snap
        audioBass := nextBass st snap
        beatHistory := (postHistory st snap).1
        beatHistorySum := (postHistory st snap).2
        beatGateUntil := t + 17 / 100 } := by
  simp only [updateAudioReactive, if_pos h]

lemma update_some_neg (st : AudioState) (snap : FrequencySnapshot) (t : ℚ)
    (h : ¬ beatTriggered st snap t) :
    updateAudioReactive st ⟨some snap, t⟩ =
      { beatPulse := st.beatPulse * (9 / 10) * (95 / 100)
        audioLevel := nextLevel st snap
        audioBass := nextBass st snap
        beatHistory := (postHistory st snap).1
        beatHistorySum := (postHistory st snap).2
        beatGateUntil := st.beatGateUntil } := by
  simp only [updateAudioReactive, if_neg h]

/-! ### Band-energy bounds -/

lemma getD_le_of_forall_le (data : List ℕ) (h : ∀ m ∈ data, m ≤ 255) (i : ℕ) :
    data.getD i 0 ≤ 255 := by
  induction data generalizing i with
  | nil => simp [List.getD]
  | cons x xs ih =>
    cases i with
    | zero => exact h x (by simp)
    | succ n =>
      simp only [List.getD_cons_succ]
      exact ih (fun m hm => h m (by simp [hm])) n

lemma sliceSum_le (data : List ℕ) (h : ∀ m ∈ data, m ≤ 255) (a b : ℤ) :
    (sliceSum data a b : ℤ) ≤ max 1 (b - a + 1) * 255 := by
  have hsum : sliceSum data a b ≤ (Finset.Icc a b).card * 255 := by
    unfold sliceSum
    calc ∑ i ∈ Finset.Icc a b, data.getD i.toNat 0
        ≤ ∑ _i ∈ Finset.Icc a b, 255 :=
          Finset.sum_le_sum (fun i _ => getD_le_of_forall_le data h i.toNat)
      _ = (Finset.Icc a b).card * 255 := by
          rw [Finset.sum_const, smul_eq_mul]
  have hcard : ((Finset.Icc a b).card : ℤ) ≤ max 1 (b - a + 1) := by
    rw [Int.card_Icc]
    rcases le_total (b + 1 - a) 0 with h0 | h0
    · have hz : (b + 1 - a).toNat = 0 := Int.toNat_of_nonpos h0
      rw [hz]
      exact le_trans (by norm_num) (le_max_left _ _)
    · rw [Int.toNat_of_nonneg h0]
      exact le_trans (le_of_eq (by ring)) (le_max_right _ _)
  calc (sliceSum data a b : ℤ) ≤ ((Finset.Icc a b).card : ℤ) * 255 := by
        exact_mod_cast hsum
    _ ≤ max 1 (b - a + 1) * 255 :=
        mul_le_mul_of_nonneg_right hcard (by norm_num)

lemma bandDenom_pos (x : ℤ) : (0 : ℚ) < ((max 1 x : ℤ) : ℚ) * 255 := by
  have h1 : (1 : ℤ) ≤ max 1 x := le_max_left _ _
  have h2 : (1 : ℚ) ≤ ((max 1 x : ℤ) : ℚ) := by exact_mod_cast h1
  linarith

lemma bassValueOf_nonneg (snap : FrequencySnapshot) : 0 ≤ bassValueOf snap :=
  div_nonneg (Nat.cast_nonneg _) (le_of_lt (bandDenom_pos _))

lemma bodyValueOf_nonneg (snap : FrequencySnapshot) : 0 ≤ bodyValueOf snap :=
  div_nonneg (Nat.cast_nonneg _) (le_of_lt (bandDenom_pos _))

lemma bassValueOf_le_one (snap : FrequencySnapshot)
    (h : ∀ m ∈ snap.data, m ≤ 255) : bassValueOf snap ≤ 1 := by
  unfold bassValueOf
  rw [div_le_one (bandDenom_pos _)]
  have := sliceSum_le snap.data h (bassStartIdx snap) (bassEndIdx snap)
  exact_mod_cast this

lemma bodyValueOf_le_one (snap : FrequencySnapshot)
    (h : ∀ m ∈ snap.data, m ≤ 255) : bodyValueOf snap ≤ 1 := by
  unfold bodyValueOf
  rw [div_le_one (bandDenom_pos _)]
  have h0 := sliceSum_le snap.data h 0 (bodyEndIdx snap)
  rw [sub_zero] at h0
  exact_mod_cast h0

/-! ### Bin-index bounds -/

lemma hzPerBin_pos (snap : FrequencySnapshot) (hval : ValidSnapshot snap) :
    0 < hzPerBin snap := by
  obtain ⟨hlen, hsr, -⟩ := hval
  unfold hzPerBin
  have hl : (0 : ℚ) < (snap.data.length : ℚ) := by
    exact_mod_cast Nat.lt_of_lt_of_le Nat.zero_lt_one hlen
  positivity

lemma floorIdx_nonneg (snap : FrequencySnapshot) (hval : ValidSnapshot snap)
    (c : ℚ) (hc : 0 ≤ c) : 0 ≤ ⌊c / hzPerBin snap⌋ :=
  Int.floor_nonneg.mpr (div_nonneg hc (le_of_lt (hzPerBin_pos snap hval)))

lemma bassEndIdx_mem (snap : FrequencySnapshot) (hval : ValidSnapshot snap) :
    0 ≤ bassEndIdx snap ∧ bassEndIdx snap ≤ (snap.data.length : ℤ) - 1 := by
  constructor
  · refine le_min ?_ (floorIdx_nonneg snap hval 180 (by norm_num))
    have h1 := hval.1
    omega
  · exact min_le_left _ _

lemma bodyEndIdx_mem (snap : FrequencySnapshot) (hval : ValidSnapshot snap) :
    0 ≤ bodyEndIdx snap ∧ bodyEndIdx snap ≤ (snap.data.length : ℤ) - 1 := by
  constructor
  · refine le_min ?_ (floorIdx_nonneg snap hval 1800 (by norm_num))
    have h1 := hval.1
    omega
  · exact min_le_left _ _

/-! ### History invariants -/

lemma pushEvict_length_pos (hist : List ℚ) (s b : ℚ) :
    0 < (pushEvict hist s b).1.length := by
  simp only [pushEvict]
  by_cases hev : (hist ++ [b]).length > 42
  · rw [if_pos hev]
    simp only [List.length_tail, List.length_append, List.length_singleton,
      List.length_cons, List.length_nil] at hev ⊢
    omega
  · rw [if_neg hev]
    simp

lemma postHistory_length_pos (st : AudioState) (snap : FrequencySnapshot) :
    0 < (postHistory st snap).1.length :=
  pushEvict_length_pos _ _ _

lemma pushEvict_spec (hist : List ℚ) (s b : ℚ)
    (hlen : hist.length ≤ 42) (hsum : s = hist.sum) :
    (pushEvict hist s b).1.length ≤ 42 ∧
      (pushEvict hist s b).2 = (pushEvict hist s b).1.sum := by
  simp only [pushEvict]
  by_cases hev : (hist ++ [b]).length > 42
  · rw [if_pos hev]
    cases hist with
    | nil => simp at hev
    | cons x xs =>
      constructor
      · simp only [List.cons_append, List.tail_cons, List.length_append,
          List.length_cons, List.length_singleton, List.length_nil] at hev hlen ⊢
        omega
      · simp only [List.cons_append, List.tail_cons, List.headD_cons,
          List.sum_append, List.sum_cons, List.sum_singleton, List.sum_nil, hsum]
        ring
  · rw [if_neg hev]
    constructor
    · simp only [List.length_append, List.length_singleton] at hev ⊢
      omega
    · simp [hsum, List.sum_append]

lemma postHistory_spec (st : AudioState) (snap : FrequencySnapshot)
    (hlen : st.beatHistory.length ≤ 42)
    (hsum : st.beatHistorySum = st.beatHistory.sum) :
    (postHistory st snap).1.length ≤ 42 ∧
      (postHistory st snap).2 = (postHistory st snap).1.sum :=
  pushEvict_spec _ _ _ hlen hsum

/-! ### Gate and beat-time lemmas -/

lemma triggered_gate_lt (st : AudioState) (e : TickEvent)
    (h : beatTriggeredEvent st e) : st.beatGateUntil < e.time := by
  cases e with
  | mk input time =>
    cases input with
    | none => exact h.elim
    | some snap => exact h.2

lemma triggered_gate_eq (st : AudioState) (e : TickEvent)
    (h : beatTriggeredEvent st e) :
    (updateAudioReactive st e).beatGateUntil = e.time + 17 / 100 := by
  cases e with
  | mk input time =>
    cases input with
    | none => exact h.elim
    | some snap => rw [update_some_pos st snap time h]

lemma not_triggered_gate_eq (st : AudioState) (e : TickEvent)
    (h : ¬ beatTriggeredEvent st e) :
    (updateAudioReactive st e).beatGateUntil = st.beatGateUntil := by
  cases e with
  | mk input time =>
    cases input with
    | none => rw [update_none]
    | some snap => rw [update_some_neg st snap time h]

lemma gate_mono_step (st : AudioState) (e : TickEvent) :
    st.beatGateUntil ≤ (updateAudioReactive st e).beatGateUntil := by
  by_cases h : beatTriggeredEvent st e
  · rw [triggered_gate_eq st e h]
    have := triggered_gate_lt st e h
    linarith
  · rw [not_triggered_gate_eq st e h]

lemma beats_gt_gate :
    ∀ (evs : List TickEvent) (st : AudioState), ∀ x ∈ beatTimes st evs,
      st.beatGateUntil < x := by
  intro evs
  induction evs with
  | nil => intro st x hx; simp [beatTimes] at hx
  | cons e es ih =>
    intro st x hx
    by_cases h : beatTriggeredEvent st e
    · rw [beatTimes, if_pos h] at hx
      rcases List.mem_cons.mp hx with hx | hx
      · rw [hx]; exact triggered_gate_lt st e h
      · exact lt_of_le_of_lt (gate_mono_step st e) (ih _ x hx)
    · rw [beatTimes, if_neg h] at hx
      have := ih (updateAudioReactive st e) x hx
      rwa [not_triggered_gate_eq st e h] at this

lemma beatTimes_pairwise :
    ∀ (evs : List TickEvent) (st : AudioState),
      List.Pairwise (fun a b => a + 17 / 100 < b) (beatTimes st evs) := by
  intro evs
  induction evs with
  | nil => intro st; simp [beatTimes]
  | cons e es ih =>
    intro st
    by_cases h : beatTriggeredEvent st e
    · rw [beatTimes, if_pos h]
      refine List.Pairwise.cons ?_ (ih _)
      intro y hy
      have hgt := beats_gt_gate es (updateAudioReactive st e) y hy
      rwa [triggered_gate_eq st e h] at hgt
    · rw [beatTimes, if_neg h]
      exact ih _

lemma runTrace_cons (st : AudioState) (e : TickEvent) (es : List TickEvent) :
    runTrace st (e :: es) = runTrace (updateAudioReactive st e) es := rfl

lemma runTrace_gate_mono :
    ∀ (evs : List TickEvent) (st : AudioState),
      st.beatGateUntil ≤ (runTrace st evs).beatGateUntil := by
  intro evs
  induction evs with
  | nil => intro st; exact le_refl _
  | cons e es ih =>
    intro st
    rw [runTrace_cons]
    exact le_trans (gate_mono_step st e) (ih _)

/-! ### Pulse decay lemmas -/

lemma pulse_nonneg_step (st : AudioState) (e : TickEvent)
    (h : 0 ≤ st.beatPulse) : 0 ≤ (updateAudioReactive st e).beatPulse := by
  cases e with
  | mk input time =>
    cases input with
    | none =>
      rw [update_none]
      dsimp only
      linarith
    | some snap =>
      by_cases ht : beatTriggered st snap time
      · rw [update_some_pos st snap time ht]
        norm_num
      · rw [update_some_neg st snap time ht]
        dsimp only
        linarith

lemma pulse_decay_step (st : AudioState) (e : TickEvent)
    (h : 0 ≤ st.beatPulse) (hnt : ¬ beatTriggeredEvent st e) :
    (updateAudioReactive st e).beatPulse ≤ st.beatPulse * (9 / 10) := by
  cases e with
  | mk input time =>
    cases input with
    | none =>
      rw [update_none]
    | some snap =>
      rw [update_some_neg st snap time hnt]
      dsimp only
      linarith

lemma pulse_trace_decay :
    ∀ (evs : List TickEvent) (st : AudioState), beatTimes st evs = [] →
      0 ≤ st.beatPulse →
      (runTrace st evs).beatPulse ≤ st.beatPulse * (9 / 10) ^ evs.length := by
  intro evs
  induction evs with
  | nil => intro st _ _; simp [runTrace]
  | cons e es ih =>
    intro st hnb hp
    by_cases h : beatTriggeredEvent st e
    · rw [beatTimes, if_pos h] at hnb
      exact absurd hnb (List.cons_ne_nil _ _)
    · rw [beatTimes, if_neg h] at hnb
      have hstep := pulse_decay_step st e hp h
      have hp1 := pulse_nonneg_step st e hp
      rw [runTrace_cons, List.length_cons]
      calc (runTrace (updateAudioReactive st e) es).beatPulse
          ≤ (updateAudioReactive st e).beatPulse * (9 / 10) ^ es.length :=
            ih _ hnb hp1
        _ ≤ (st.beatPulse * (9 / 10)) * (9 / 10) ^ es.length :=
            mul_le_mul_of_nonneg_right hstep (by positivity)
        _ = st.beatPulse * (9 / 10) ^ (es.length + 1) := by ring

/-! ### No-audio trace lemma -/

lemma runTrace_none_fields :
    ∀ (evs : List TickEvent) (st : AudioState), (∀ e ∈ evs, e.input = none) →
      (runTrace st evs).audioLevel = st.audioLevel * (92 / 100) ^ evs.length ∧
      (runTrace st evs).audioBass = st.audioBass * (9 / 10) ^ evs.length ∧
      (runTrace st evs).beatPulse = st.beatPulse * (9 / 10) ^ evs.length := by
  intro evs
  induction evs with
  | nil => intro st _; simp [runTrace]
  | cons e es ih =>
    intro st hall
    have he : e.input = none := hall e (List.mem_cons_self e es)
    cases e with
    | mk input time =>
      cases input with
      | some snap => simp at he
      | none =>
        rw [runTrace_cons, List.length_cons, update_none]
        have h := ih
          { st with
            beatPulse := st.beatPulse * (9 / 10)
            audioLevel := st.audioLevel * (92 / 100)
            audioBass := st.audioBass * (9 / 10) }
          (fun x hx => hall x (List.mem_cons_of_mem _ hx))
        dsimp only at h
        obtain ⟨h1, h2, h3⟩ := h
        refine ⟨?_, ?_, ?_⟩
        · rw [h1]; ring
        · rw [h2]; ring
        · rw [h3]; ring

lemma gate_of_no_beats :
    ∀ (evs : List TickEvent) (st : AudioState), beatTimes st evs = [] →
      (runTrace st evs).beatGateUntil = st.beatGateUntil := by
  intro evs
  induction evs with
  | nil => intro st _; rfl
  | cons e es ih =>
    intro st hnb
    by_cases h : beatTriggeredEvent st e
    · rw [beatTimes, if_pos h] at hnb
      exact absurd hnb (List.cons_ne_nil _ _)
    · rw [beatTimes, if_neg h] at hnb
      rw [runTrace_cons, ih _ hnb, not_triggered_gate_eq st e h]

/-! ### Claim theorems -/

/-- C1: On every audio-active tick the adaptive threshold equals
max(0.14, average * 1.32), where average is the running sum divided by the
(always positive) history length after the push/evict step; if the smoothed
bass exceeds the threshold and the timestamp exceeds gateUntil, the pulse is
set to 1 and gateUntil to the timestamp plus 0.17; otherwise the pulse
decays by the combined factor 0.855 (that is, 0.9 times 0.95) and gateUntil
is unchanged. -/
theorem spec_C1 (st : AudioState) (snap : FrequencySnapshot) (t : ℚ) :
    0 < (postHistory st snap).1.length ∧
    thresholdOf st snap =
      max (14 / 100)
        ((postHistory st snap).2 / ((postHistory st snap).1.length : ℚ) * (132 / 100)) ∧
    (beatTriggered st snap t →
      (updateAudioReactive st ⟨some snap, t⟩).beatPulse = 1 ∧
      (updateAudioReactive st ⟨some snap, t⟩).beatGateUntil = t + 17 / 100) ∧
    (¬ beatTriggered st snap t →
      (updateAudioReactive st ⟨some snap, t⟩).beatPulse = st.beatPulse * (855 / 1000) ∧
      (updateAudioReactive st ⟨some snap, t⟩).beatGateUntil = st.beatGateUntil) := by
  have hlen := postHistory_length_pos st snap
  refine ⟨hlen, ?_, ?_, ?_⟩
  · simp only [thresholdOf, averageBass]
    rw [if_pos hlen]
  · intro h
    rw [update_some_pos st snap t h]
    exact ⟨rfl, rfl⟩
  · intro h
    rw [update_some_neg st snap t h]
    refine ⟨?_, rfl⟩
    dsimp only
    ring

/-- C2: Over any sequence of ticks with arbitrary inputs and timestamps,
consecutive triggered beat timestamps are separated by more than 0.17
seconds (stated pairwise over the whole beat list), gateUntil is
monotonically non-decreasing over the run, it only moves on a tick whose
trigger condition fired, and a run without beats leaves it unchanged. -/
theorem spec_C2 (st : AudioState) (evs : List TickEvent) :
    List.Pairwise (fun a b => a + 17 / 100 < b) (beatTimes st evs) ∧
    st.beatGateUntil ≤ (runTrace st evs).beatGateUntil ∧
    (∀ e : TickEvent,
      (updateAudioReactive st e).beatGateUntil ≠ st.beatGateUntil →
        beatTriggeredEvent st e) ∧
    (beatTimes st evs = [] →
      (runTrace st evs).beatGateUntil = st.beatGateUntil) :=
  ⟨beatTimes_pairwise evs st, runTrace_gate_mono evs st,
   fun e hne => of_not_not (fun h => hne (not_triggered_gate_eq st e h)),
   gate_of_no_beats evs st⟩

/-- C3: If before a tick the history has length at most 42 and the running
sum equals the sum of its members, the same holds after the tick (the push
plus conditional evict keeps the length bound and the sum consistent). -/
theorem spec_C3 (st : AudioState) (e : TickEvent)
    (hlen : st.beatHistory.length ≤ 42)
    (hsum : st.beatHistorySum = st.beatHistory.sum) :
    (updateAudioReactive st e).beatHistory.length ≤ 42 ∧
    (updateAudioReactive st e).beatHistorySum =
      (updateAudioReactive st e).beatHistory.sum := by
  obtain ⟨input, time⟩ := e
  cases input with
  | none => rw [update_none]; exact ⟨hlen, hsum⟩
  | some snap =>
    have h := postHistory_spec st snap hlen hsum
    by_cases ht : beatTriggered st snap time
    · rw [update_some_pos st snap time ht]; exact h
    · rw [update_some_neg st snap time ht]; exact h

/-- C4 (counterexample): the claim says every computed bin index is clamped
to [0, binCount - 1]; but for the valid snapshot with one zero bin and
sample rate 1, the code computes bass start index floor(30 / 0.5) = 60,
which is not at most binCount - 1 = 0 (the code clamps the start index from
below only). -/
theorem spec_C4_counterexample :
    ValidSnapshot ⟨[0], 1⟩ ∧
    bassStartIdx ⟨[0], 1⟩ = 60 ∧
    ¬ bassStartIdx ⟨[0], 1⟩ ≤ (([0] : List ℕ).length : ℤ) - 1 := by
  have h60 : bassStartIdx ⟨[0], 1⟩ = 60 := by
    norm_num [bassStartIdx, hzPerBin]
  refine ⟨⟨by simp, by norm_num, by simp⟩, h60, ?_⟩
  rw [h60]
  norm_num

/-- C4 (amended): for every valid snapshot the bass start index is
nonnegative (clamped from below at 0 only; it may exceed binCount - 1),
both end indices lie within [0, binCount - 1], and the extracted bass and
body energies lie in [0, 1]. -/
theorem spec_C4 (snap : FrequencySnapshot) (hval : ValidSnapshot snap) :
    0 ≤ bassStartIdx snap ∧
    (0 ≤ bassEndIdx snap ∧ bassEndIdx snap ≤ (snap.data.length : ℤ) - 1) ∧
    (0 ≤ bodyEndIdx snap ∧ bodyEndIdx snap ≤ (snap.data.length : ℤ) - 1) ∧
    (0 ≤ bassValueOf snap ∧ bassValueOf snap ≤ 1) ∧
    (0 ≤ bodyValueOf snap ∧ bodyValueOf snap ≤ 1) :=
  ⟨le_max_left _ _, bassEndIdx_mem snap hval, bodyEndIdx_mem snap hval,
   ⟨bassValueOf_nonneg snap, bassValueOf_le_one snap hval.2.2⟩,
   ⟨bodyValueOf_nonneg snap, bodyValueOf_le_one snap hval.2.2⟩⟩

/-- C5: On an audio-active tick the smoothing filter computes
level * 0.84 + body * 0.16 and bass * 0.72 + bassNew * 0.28, and on every
tick (active with a valid snapshot, or inactive) level and bass stay within
[0, 1] when they start there. -/
theorem spec_C5 (st : AudioState) (e : TickEvent)
    (hval : ∀ snap, e.input = some snap → ValidSnapshot snap)
    (hL0 : 0 ≤ st.audioLevel) (hL1 : st.audioLevel ≤ 1)
    (hB0 : 0 ≤ st.audioBass) (hB1 : st.audioBass ≤ 1) :
    (∀ snap, e.input = some snap →
      (updateAudioReactive st e).audioLevel =
        st.audioLevel * (84 / 100) + bodyValueOf snap * (16 / 100) ∧
      (updateAudioReactive st e).audioBass =
        st.audioBass * (72 / 100) + bassValueOf snap * (28 / 100)) ∧
    (0 ≤ (updateAudioReactive st e).audioLevel ∧
      (updateAudioReactive st e).audioLevel ≤ 1 ∧
      0 ≤ (updateAudioReactive st e).audioBass ∧
      (updateAudioReactive st e).audioBass ≤ 1) := by
  obtain ⟨input, time⟩ := e
  cases input with
  | none =>
    rw [update_none]
    refine ⟨fun snap h => by simp at h, ?_⟩
    dsimp only
    exact ⟨by linarith, by linarith, by linarith, by linarith⟩
  | some snap =>
    have hv := hval snap rfl
    have hb0 := bassValueOf_nonneg snap
    have hb1 := bassValueOf_le_one snap hv.2.2
    have hd0 := bodyValueOf_nonneg snap
    have hd1 := bodyValueOf_le_one snap hv.2.2
    have heqL : (updateAudioReactive st ⟨some snap, time⟩).audioLevel =
        nextLevel st snap := by
      by_cases ht : beatTriggered st snap time
      · rw [update_some_pos st snap time ht]
      · rw [update_some_neg st snap time ht]
    have heqB : (updateAudioReactive st ⟨some snap, time⟩).audioBass =
        nextBass st snap := by
      by_cases ht : beatTriggered st snap time
      · rw [update_some_pos st snap time ht]
      · rw [update_some_neg st snap time ht]
    rw [heqL, heqB]
    unfold nextLevel nextBass
    refine ⟨fun snap2 h => ?_, by linarith, by linarith, by linarith, by linarith⟩
    have h2 : snap = snap2 := by
      simp only [Option.some.injEq] at h
      exact h
    rw [h2]
    exact ⟨rfl, rfl⟩

/-- C6: The pulse decays by 0.9 on every tick (the unavailable branch leaves
exactly pulse * 0.9, an untriggered active branch exactly
pulse * 0.9 * 0.95), the pulse never becomes negative, along a beat-free run
it is bounded by pulse * 0.9 ^ ticks, and a beat-free run of at least 44
ticks starting from a pulse of at most 1 pushes it below 0.01. -/
theorem spec_C6 (st : AudioState) (e : TickEvent) (evs : List TickEvent) :
    (e.input = none →
      (updateAudioReactive st e).beatPulse = st.beatPulse * (9 / 10)) ∧
    (∀ snap, e.input = some snap → ¬ beatTriggered st snap e.time →
      (updateAudioReactive st e).beatPulse =
        st.beatPulse * (9 / 10) * (95 / 100)) ∧
    (0 ≤ st.beatPulse → 0 ≤ (updateAudioReactive st e).beatPulse) ∧
    (beatTimes st evs = [] → 0 ≤ st.beatPulse →
      (runTrace st evs).beatPulse ≤ st.beatPulse * (9 / 10) ^ evs.length) ∧
    (beatTimes st evs = [] → 0 ≤ st.beatPulse → st.beatPulse ≤ 1 →
      44 ≤ evs.length → (runTrace st evs).beatPulse < 1 / 100) := by
  refine ⟨?_, ?_, pulse_nonneg_step st e, pulse_trace_decay evs st, ?_⟩
  · intro h
    obtain ⟨input, time⟩ := e
    cases input with
    | none => rw [update_none]
    | some snap => simp at h
  · intro snap h hnt
    obtain ⟨input, time⟩ := e
    simp only at h
    rw [h] at hnt ⊢
    rw [update_some_neg st snap time hnt]
  · intro hnb hp hp1 hlen
    have hd := pulse_trace_decay evs st hnb hp
    have hpow : ((9 : ℚ) / 10) ^ evs.length ≤ ((9 : ℚ) / 10) ^ 44 :=
      pow_le_pow_of_le_one (by norm_num) (by norm_num) hlen
    have h44 : ((9 : ℚ) / 10) ^ 44 < 1 / 100 := by norm_num
    calc (runTrace st evs).beatPulse
        ≤ st.beatPulse * (9 / 10) ^ evs.length := hd
      _ ≤ 1 * (9 / 10) ^ evs.length :=
          mul_le_mul_of_nonneg_right hp1 (by positivity)
      _ = (9 / 10) ^ evs.length := one_mul _
      _ ≤ (9 / 10) ^ 44 := hpow
      _ < 1 / 100 := h44

/-- C7: The published meter value equals the clamp to [0.03, 1] of
level * 1.15 + pulse * 0.35 on an audio-inactive tick and of
level * 1.4 + pulse * 0.5 on an active tick (both on the updated state), and
for every state and input it lies within [0.03, 1]. -/
theorem spec_C7 (st : AudioState) (e : TickEvent) :
    (3 / 100 ≤ tickMeter st e ∧ tickMeter st e ≤ 1) ∧
    (e.input = none → tickMeter st e =
      max (3 / 100) (min 1 ((updateAudioReactive st e).audioLevel * (115 / 100) +
        (updateAudioReactive st e).beatPulse * (35 / 100)))) ∧
    (∀ snap, e.input = some snap → tickMeter st e =
      max (3 / 100) (min 1 ((updateAudioReactive st e).audioLevel * (14 / 10) +
        (updateAudioReactive st e).beatPulse * (5 / 10)))) := by
  have hbounds : ∀ x : ℚ, 3 / 100 ≤ setAudioMeter x ∧ setAudioMeter x ≤ 1 := by
    intro x
    unfold setAudioMeter
    exact ⟨le_max_left _ _, max_le (by norm_num) (min_le_left _ _)⟩
  obtain ⟨input, time⟩ := e
  cases input with
  | none => exact ⟨hbounds _, fun _ => rfl, fun snap h => by simp at h⟩
  | some snap => exact ⟨hbounds _, fun h => by simp at h, fun snap2 _ => rfl⟩

/-- C8: On an audio-unavailable tick the update is the total decay-only map:
level becomes level * 0.92, bass becomes bass * 0.9, the pulse only takes
its baseline 0.9 decay; nonnegative level and bass decrease toward 0, and a
run of unavailable ticks multiplies them by the corresponding power of the
decay coefficients. -/
theorem spec_C8 (st : AudioState) (t : ℚ) (evs : List TickEvent) :
    ((updateAudioReactive st ⟨none, t⟩).audioLevel = st.audioLevel * (92 / 100) ∧
     (updateAudioReactive st ⟨none, t⟩).audioBass = st.audioBass * (9 / 10) ∧
     (updateAudioReactive st ⟨none, t⟩).beatPulse = st.beatPulse * (9 / 10)) ∧
    (0 ≤ st.audioLevel →
      0 ≤ (updateAudioReactive st ⟨none, t⟩).audioLevel ∧
      (updateAudioReactive st ⟨none, t⟩).audioLevel ≤ st.audioLevel) ∧
    (0 ≤ st.audioBass →
      0 ≤ (updateAudioReactive st ⟨none, t⟩).audioBass ∧
      (updateAudioReactive st ⟨none, t⟩).audioBass ≤ st.audioBass) ∧
    ((∀ e ∈ evs, e.input = none) →
      (runTrace st evs).audioLevel = st.audioLevel * (92 / 100) ^ evs.length ∧
      (runTrace st evs).audioBass = st.audioBass * (9 / 10) ^ evs.length ∧
      (runTrace st evs).beatPulse = st.beatPulse * (9 / 10) ^ evs.length) := by
  refine ⟨⟨rfl, rfl, rfl⟩, ?_, ?_, runTrace_none_fields evs st⟩
  · intro h
    rw [update_none]
    dsimp only
    exact ⟨by linarith, by linarith⟩
  · intro h
    rw [update_none]
    dsimp only
    exact ⟨by linarith, by linarith⟩

/-- C9: An audio-unavailable tick leaves the detector state untouched: the
history, the running sum and the refractory gate keep their exact values
(only pulse, level and bass, the remaining three fields, change). -/
theorem spec_C9 (st : AudioState) (t : ℚ) :
    (updateAudioReactive st ⟨none, t⟩).beatHistory = st.beatHistory ∧
    (updateAudioReactive st ⟨none, t⟩).beatHistorySum = st.beatHistorySum ∧
    (updateAudioReactive st ⟨none, t⟩).beatGateUntil = st.beatGateUntil :=
  ⟨rfl, rfl, rfl⟩

/-- C10: On an active tick starting from an empty history with a consistent
(zero) running sum and a nonnegative smoothed bass, the post-push average
equals the new bass itself, so bass > max(0.14, bass * 1.32) cannot hold: no
beat fires and the pulse takes the untriggered combined decay. -/
theorem spec_C10 (st : AudioState) (snap : FrequencySnapshot) (t : ℚ)
    (hhist : st.beatHistory = []) (hsum : st.beatHistorySum = 0)
    (hbass : 0 ≤ st.audioBass) :
    ¬ beatTriggered st snap t ∧
    (updateAudioReactive st ⟨some snap, t⟩).beatPulse =
      st.beatPulse * (9 / 10) * (95 / 100) := by
  have hb : 0 ≤ nextBass st snap := by
    unfold nextBass
    have := bassValueOf_nonneg snap
    linarith
  have hnt : ¬ beatTriggered st snap t := by
    intro h
    have hth := h.1
    have havg : averageBass st snap = nextBass st snap := by
      simp only [averageBass, postHistory, pushEvict, hhist, hsum]
      simp
    have hle : nextBass st snap ≤ thresholdOf st snap := by
      unfold thresholdOf
      rw [havg]
      refine le_trans ?_ (le_max_right _ _)
      linarith
    exact absurd hth (not_lt.mpr hle)
  exact ⟨hnt, by rw [update_some_neg st snap t hnt]⟩

/-! ### Concrete-instance helpers for the witnesses -/

lemma validSnapshot_W : ValidSnapshot ⟨[255], 100⟩ :=
  ⟨by simp, by norm_num, by simp⟩

lemma bassValueOf_W : bassValueOf ⟨[255], 100⟩ = 1 := by
  have hs : bassStartIdx ⟨[255], 100⟩ = 0 := by
    norm_num [bassStartIdx, hzPerBin]
  have he : bassEndIdx ⟨[255], 100⟩ = 0 := by
    norm_num [bassEndIdx, hzPerBin]
  rw [bassValueOf, hs, he]
  norm_num [sliceSum, Finset.Icc_self, Finset.sum_singleton]

lemma nextBass_W : nextBass ⟨1, 0, 1, [0], 0, 0⟩ ⟨[255], 100⟩ = 1 := by
  rw [nextBass, bassValueOf_W]
  norm_num

lemma triggered_W : beatTriggered ⟨1, 0, 1, [0], 0, 0⟩ ⟨[255], 100⟩ 1 := by
  refine ⟨?_, by norm_num⟩
  have hav : averageBass ⟨1, 0, 1, [0], 0, 0⟩ ⟨[255], 100⟩ = 1 / 2 := by
    rw [averageBass, postHistory, nextBass_W]
    norm_num [pushEvict]
  have hth : thresholdOf ⟨1, 0, 1, [0], 0, 0⟩ ⟨[255], 100⟩ = 66 / 100 := by
    rw [thresholdOf, hav]
    rw [max_eq_right (by norm_num : (14 : ℚ) / 100 ≤ 1 / 2 * (132 / 100))]
    norm_num
  rw [hth, nextBass_W]
  norm_num

lemma not_triggered_W0 : ¬ beatTriggered ⟨1, 0, 1, [0], 0, 0⟩ ⟨[255], 100⟩ 0 :=
  fun h => absurd h.2 (lt_irrefl 0)

/-! ### Witnesses -/

/-- C1 witness: a concrete triggering tick sets the pulse to 1 and the gate
to the timestamp plus 0.17, and a concrete untriggered active tick applies
the combined 0.855 decay. -/
theorem spec_C1_witness :
    (updateAudioReactive ⟨1, 0, 1, [0], 0, 0⟩ ⟨some ⟨[255], 100⟩, 1⟩).beatPulse = 1 ∧
    (updateAudioReactive ⟨1, 0, 1, [0], 0, 0⟩ ⟨some ⟨[255], 100⟩, 1⟩).beatGateUntil =
      1 + 17 / 100 ∧
    (updateAudioReactive ⟨1, 0, 1, [0], 0, 0⟩ ⟨some ⟨[255], 100⟩, 0⟩).beatPulse =
      1 * (855 / 1000) := by
  obtain ⟨h1, h2⟩ :=
    (spec_C1 ⟨1, 0, 1, [0], 0, 0⟩ ⟨[255], 100⟩ 1).2.2.1 triggered_W
  obtain ⟨h3, -⟩ :=
    (spec_C1 ⟨1, 0, 1, [0], 0, 0⟩ ⟨[255], 100⟩ 0).2.2.2 not_triggered_W0
  exact ⟨h1, h2, h3⟩

/-- C2 witness: a concrete tick whose gate moves is a triggered tick, and a
concrete beat-free run leaves the gate unchanged. -/
theorem spec_C2_witness :
    beatTriggeredEvent ⟨1, 0, 1, [0], 0, 0⟩ ⟨some ⟨[255], 100⟩, 1⟩ ∧
    (runTrace ⟨1, 0, 1, [0], 0, 0⟩ [⟨none, 0⟩]).beatGateUntil = 0 := by
  constructor
  · refine (spec_C2 ⟨1, 0, 1, [0], 0, 0⟩ []).2.2.1 ⟨some ⟨[255], 100⟩, 1⟩ ?_
    rw [update_some_pos _ _ _ triggered_W]
    dsimp only
    norm_num
  · exact (spec_C2 ⟨1, 0, 1, [0], 0, 0⟩ [⟨none, 0⟩]).2.2.2 rfl

/-- C3 witness: the history invariant applied to a concrete active tick from
the empty history. -/
theorem spec_C3_witness :
    (updateAudioReactive ⟨0, 0, 0, [], 0, 0⟩ ⟨some ⟨[255], 100⟩, 1⟩).beatHistory.length ≤ 42 ∧
    (updateAudioReactive ⟨0, 0, 0, [], 0, 0⟩ ⟨some ⟨[255], 100⟩, 1⟩).beatHistorySum =
      (updateAudioReactive ⟨0, 0, 0, [], 0, 0⟩ ⟨some ⟨[255], 100⟩, 1⟩).beatHistory.sum :=
  spec_C3 ⟨0, 0, 0, [], 0, 0⟩ ⟨some ⟨[255], 100⟩, 1⟩ (by decide) rfl

/-- C4 witness: the amended index and energy bounds at a concrete valid
snapshot. -/
theorem spec_C4_witness :
    0 ≤ bassStartIdx ⟨[255], 100⟩ ∧
    (0 ≤ bassEndIdx ⟨[255], 100⟩ ∧
      bassEndIdx ⟨[255], 100⟩ ≤ (([255] : List ℕ).length : ℤ) - 1) ∧
    (0 ≤ bodyEndIdx ⟨[255], 100⟩ ∧
      bodyEndIdx ⟨[255], 100⟩ ≤ (([255] : List ℕ).length : ℤ) - 1) ∧
    (0 ≤ bassValueOf ⟨[255], 100⟩ ∧ bassValueOf ⟨[255], 100⟩ ≤ 1) ∧
    (0 ≤ bodyValueOf ⟨[255], 100⟩ ∧ bodyValueOf ⟨[255], 100⟩ ≤ 1) :=
  spec_C4 ⟨[255], 100⟩ validSnapshot_W

/-- C5 witness: the smoothing equations and bounds at a concrete valid
active tick. -/
theorem spec_C5_witness :
    (updateAudioReactive ⟨0, 0, 0, [], 0, 0⟩ ⟨some ⟨[255], 100⟩, 1⟩).audioLevel =
      (0 : ℚ) * (84 / 100) + bodyValueOf ⟨[255], 100⟩ * (16 / 100) ∧
    0 ≤ (updateAudioReactive ⟨0, 0, 0, [], 0, 0⟩ ⟨some ⟨[255], 100⟩, 1⟩).audioBass ∧
    (updateAudioReactive ⟨0, 0, 0, [], 0, 0⟩ ⟨some ⟨[255], 100⟩, 1⟩).audioBass ≤ 1 := by
  have h := spec_C5 ⟨0, 0, 0, [], 0, 0⟩ ⟨some ⟨[255], 100⟩, 1⟩
    (fun snap hs => by
      dsimp only at hs
      injection hs with h2
      rw [← h2]
      exact validSnapshot_W)
    (le_refl 0) (by norm_num) (le_refl 0) (by norm_num)
  exact ⟨(h.1 ⟨[255], 100⟩ rfl).1, h.2.2.2.1, h.2.2.2.2⟩

/-- C6 witness: the pulse decay equations and the 44-tick bound at concrete
states and runs. -/
theorem spec_C6_witness :
    (updateAudioReactive ⟨1, 0, 0, [], 0, 0⟩ ⟨none, 0⟩).beatPulse = 1 * (9 / 10) ∧
    (updateAudioReactive ⟨1, 0, 1, [0], 0, 0⟩ ⟨some ⟨[255], 100⟩, 0⟩).beatPulse =
      1 * (9 / 10) * (95 / 100) ∧
    (runTrace ⟨1, 0, 0, [], 0, 0⟩ (List.replicate 44 ⟨none, 0⟩)).beatPulse < 1 / 100 := by
  refine ⟨?_, ?_, ?_⟩
  · exact (spec_C6 ⟨1, 0, 0, [], 0, 0⟩ ⟨none, 0⟩ []).1 rfl
  · exact (spec_C6 ⟨1, 0, 1, [0], 0, 0⟩ ⟨some ⟨[255], 100⟩, 0⟩ []).2.1
      ⟨[255], 100⟩ rfl not_triggered_W0
  · exact (spec_C6 ⟨1, 0, 0, [], 0, 0⟩ ⟨none, 0⟩ (List.replicate 44 ⟨none, 0⟩)).2.2.2.2
      (by rfl) (by norm_num) (by norm_num) (by simp)

/-- C7 witness: the meter equations at a concrete inactive tick and a
concrete active tick. -/
theorem spec_C7_witness :
    tickMeter ⟨0, 0, 0, [], 0, 0⟩ ⟨none, 0⟩ =
      max (3 / 100)
        (min 1 ((updateAudioReactive ⟨0, 0, 0, [], 0, 0⟩ ⟨none, 0⟩).audioLevel * (115 / 100) +
          (updateAudioReactive ⟨0, 0, 0, [], 0, 0⟩ ⟨none, 0⟩).beatPulse * (35 / 100))) ∧
    tickMeter ⟨0, 0, 0, [], 0, 0⟩ ⟨some ⟨[255], 100⟩, 1⟩ =
      max (3 / 100)
        (min 1 ((updateAudioReactive ⟨0, 0, 0, [], 0, 0⟩ ⟨some ⟨[255], 100⟩, 1⟩).audioLevel * (14 / 10) +
          (updateAudioReactive ⟨0, 0, 0, [], 0, 0⟩ ⟨some ⟨[255], 100⟩, 1⟩).beatPulse * (5 / 10))) :=
  ⟨(spec_C7 ⟨0, 0, 0, [], 0, 0⟩ ⟨none, 0⟩).2.1 rfl,
   (spec_C7 ⟨0, 0, 0, [], 0, 0⟩ ⟨some ⟨[255], 100⟩, 1⟩).2.2 ⟨[255], 100⟩ rfl⟩

/-- C8 witness: the decay bounds and the two-tick closed form at a concrete
state starting from level and bass 1. -/
theorem spec_C8_witness :
    (0 ≤ (updateAudioReactive ⟨0, 1, 1, [], 0, 0⟩ ⟨none, 0⟩).audioLevel ∧
      (updateAudioReactive ⟨0, 1, 1, [], 0, 0⟩ ⟨none, 0⟩).audioLevel ≤ 1) ∧
    (runTrace ⟨0, 1, 1, [], 0, 0⟩ [⟨none, 0⟩, ⟨none, 1⟩]).audioLevel =
      1 * (92 / 100) ^ 2 := by
  constructor
  · exact (spec_C8 ⟨0, 1, 1, [], 0, 0⟩ 0 []).2.1 (by norm_num)
  · exact ((spec_C8 ⟨0, 1, 1, [], 0, 0⟩ 0 [⟨none, 0⟩, ⟨none, 1⟩]).2.2.2 (by decide)).1

/-- C10 witness: from the empty history no beat fires on a concrete active
tick and the pulse takes the combined decay. -/
theorem spec_C10_witness :
    ¬ beatTriggered ⟨1, 0, 0, [], 0, 0⟩ ⟨[255], 100⟩ 5 ∧
    (updateAudioReactive ⟨1, 0, 0, [], 0, 0⟩ ⟨some ⟨[255], 100⟩, 5⟩).beatPulse =
      1 * (9 / 10) * (95 / 100) :=
  spec_C10 ⟨1, 0, 0, [], 0, 0⟩ ⟨[255], 100⟩ 5 rfl rfl (le_refl 0)
